import Mathlib

/-!
Verification of the Yamllint lint plugin (molecule/lint/yamllint.py).

The plugin discovers YAML files under the project directory, merges default
options and environment with user overrides, bakes a yamllint command, and
executes it, mapping the external tool outcome onto the orchestrator model.

Repository helpers that the plugin calls but whose code is not part of the
excerpt (util.merge_dicts, util.os_walk, util.run_command, util.sysexit and
the base.Base properties) are modelled from the specification; each such
definition carries a doc comment saying so.  Everything else is translated
from molecule/lint/yamllint.py.
-/

/-- Association lists standing for Python dicts (insertion ordered, first
occurrence of a key wins on lookup). -/
abbrev Dict (α : Type) := List (String × α)

/-- Modelled from the spec: util.merge_dicts is not under src/.  Spec 4.2:
shallow key-replace merge, pure, no mutation of inputs.  A key of b replaces
the corresponding value of a, keys only in a keep their value, keys only in
b are appended (Python dict update order). -/
def merge_dicts {α : Type} (a b : Dict α) : Dict α :=
  a.map (fun p => (p.1, ((List.lookup p.1 b).getD p.2))) ++
    b.filter (fun q => (List.lookup q.1 a).isNone)

theorem lookup_map_snd {α : Type} (g : String → α → α) (k : String) :
    (a : Dict α) →
      List.lookup k (a.map (fun p => (p.1, g p.1 p.2))) =
        (List.lookup k a).map (g k)
  | [] => rfl
  | (k1, v1) :: tl => by
    by_cases h : k = k1
    · subst h
      simp [List.lookup]
    · have hb : (k == k1) = false := beq_false_of_ne h
      simp [List.lookup, hb, lookup_map_snd g k tl]

theorem lookup_filter_key {α : Type} (c : String → Bool) (k : String) :
    (b : Dict α) →
      List.lookup k (b.filter (fun q => c q.1)) =
        if c k then List.lookup k b else none
  | [] => by simp
  | (k1, v1) :: tl => by
    by_cases h : k = k1
    · subst h
      by_cases hc : c k
      · simp [List.filter, hc, List.lookup]
      · simp only [List.filter_cons]
        simp only [hc, Bool.false_eq_true, if_false, reduceIte]
        rw [lookup_filter_key c k tl]
        simp [hc]
    · have hb : (k == k1) = false := beq_false_of_ne h
      by_cases hc : c k1
      · simp only [List.filter_cons, hc, if_true, reduceIte]
        simp [List.lookup, hb, lookup_filter_key c k tl]
      · simp only [List.filter_cons]
        simp only [hc, Bool.false_eq_true, if_false, reduceIte]
        rw [lookup_filter_key c k tl]
        simp [List.lookup, hb]

/-- Characterisation of the shallow merge: an override key wins, any other
key keeps the value of the first dict. -/
theorem lookup_merge_dicts {α : Type} (a b : Dict α) (k : String) :
    List.lookup k (merge_dicts a b) = (List.lookup k b).or (List.lookup k a) := by
  unfold merge_dicts
  rw [List.lookup_append]
  rw [lookup_map_snd (fun k0 v0 => (List.lookup k0 b).getD v0) k a]
  rw [lookup_filter_key (fun k0 => (List.lookup k0 a).isNone) k b]
  cases ha : List.lookup k a with
  | some w =>
    cases hb : List.lookup k b with
    | some v => simp [Option.or_some]
    | none => simp [Option.none_or]
  | none =>
    cases hb : List.lookup k b with
    | some v => simp [hb, Option.or_some]
    | none => simp [hb, Option.none_or]

mutual
/-- A directory tree: the files directly in a directory and its named
subdirectories.  FsDirs is an explicit list type so that the walk is a
plain mutual structural recursion. -/
inductive FsTree : Type where
  | node (files : List String) (dirs : FsDirs)

inductive FsDirs : Type where
  | nil
  | cons (name : String) (tree : FsTree) (rest : FsDirs)
end

/-- Shallow model of os.path.join for the relative names produced by the
walk (the only use in the source). -/
def path_join (root name : String) : String :=
  root ++ ("/") ++ name

/-- Shallow model of os.path.basename: the part after the last slash. -/
def basename (p : String) : String :=
  String.mk ((p.data.reverse.takeWhile (fun c => c != ('/' : Char))).reverse)

/-- Shallow model of fnmatch.fnmatch for the patterns the plugin uses: a
pattern starting with a star matches any name ending with the remainder of
the pattern, any other pattern matches only itself. -/
def globMatch (pattern name : String) : Bool :=
  match pattern.data with
  | ('*' : Char) :: rest => decide (rest <:+ name.data)
  | _ => pattern == name

mutual
/-- Modelled from the spec: util.os_walk is not under src/.  Spec 4.1: a
topdown recursive walk that at every directory level prunes any
subdirectory whose base name is in the exclusion list, yields the joined
paths of the files of the current directory that match the glob pattern,
and then descends into the surviving subdirectories in order. -/
def walkTree (pattern : String) (excludes : List String) (root : String) :
    FsTree → List String
  | .node files dirs =>
      (files.filter (fun n => globMatch pattern n)).map (fun n => path_join root n)
        ++ walkDirs pattern excludes root dirs

def walkDirs (pattern : String) (excludes : List String) (root : String) :
    FsDirs → List String
  | .nil => []
  | .cons name t rest =>
      (if excludes.contains name then []
       else walkTree pattern excludes (path_join root name) t)
        ++ walkDirs pattern excludes root rest
end

/-- Modelled from the spec: the util.os_walk entry point, taking the tree
rooted at the given directory as an explicit argument. -/
def os_walk (directory : String) (pattern : String) (excludes : List String)
    (tree : FsTree) : List String :=
  walkTree pattern excludes directory tree

/-- Membership of a named subtree in a subdirectory list. -/
inductive DirsHas : FsDirs → String → FsTree → Prop where
  | head {d : String} {t : FsTree} {rest : FsDirs} : DirsHas (.cons d t rest) d t
  | tail {d0 : String} {t0 : FsTree} {rest : FsDirs} {d : String} {t : FsTree} :
      DirsHas rest d t → DirsHas (.cons d0 t0 rest) d t

/-- A chain of nested subdirectories of a tree ending at a file: DirChain t
ds n holds when descending from the root of t through the directory names
ds in order reaches a directory that directly contains a file named n. -/
inductive DirChain : FsTree → List String → String → Prop where
  | here {files : List String} {dirs : FsDirs} {n : String} :
      n ∈ files → DirChain (.node files dirs) [] n
  | there {files : List String} {dirs : FsDirs} {d : String} {t : FsTree}
      {ds : List String} {n : String} :
      DirsHas dirs d t → DirChain t ds n →
      DirChain (.node files dirs) (d :: ds) n

/-- Joined path of a file reached through a chain of directories. -/
def joinAll (root : String) (ds : List String) (n : String) : String :=
  path_join (List.foldl path_join root ds) n

mutual
/-- Every file emitted by the walk is reached through a chain of
subdirectories none of which is excluded, and its name matches the
pattern. -/
theorem walkTree_mem (pattern : String) (excludes : List String) (root : String)
    (t : FsTree) (f : String) (hf : f ∈ walkTree pattern excludes root t) :
    ∃ ds n, DirChain t ds n ∧ (∀ d ∈ ds, excludes.contains d = false) ∧
      globMatch pattern n = true ∧ f = joinAll root ds n := by
  match t with
  | .node files dirs =>
    rw [walkTree] at hf
    rcases List.mem_append.mp hf with hl | hr
    · rcases List.mem_map.mp hl with ⟨n, hn, hjoin⟩
      rcases List.mem_filter.mp hn with ⟨hmem, hmatch⟩
      exact ⟨[], n, DirChain.here hmem, by simp, hmatch, hjoin.symm⟩
    · rcases walkDirs_mem pattern excludes root dirs f hr with
        ⟨d, t1, ds, n, hhas, hdex, hchain, hex, hmatch, hjoin⟩
      refine ⟨d :: ds, n, DirChain.there hhas hchain, ?_, hmatch, ?_⟩
      · intro x hx
        rcases List.mem_cons.mp hx with h1 | h2
        · exact h1 ▸ hdex
        · exact hex x h2
      · simpa [joinAll, List.foldl_cons] using hjoin

/-- Companion of walkTree_mem for subdirectory lists. -/
theorem walkDirs_mem (pattern : String) (excludes : List String) (root : String)
    (dirs : FsDirs) (f : String) (hf : f ∈ walkDirs pattern excludes root dirs) :
    ∃ d t ds n, DirsHas dirs d t ∧ excludes.contains d = false ∧
      DirChain t ds n ∧ (∀ x ∈ ds, excludes.contains x = false) ∧
      globMatch pattern n = true ∧ f = joinAll (path_join root d) ds n := by
  match dirs with
  | .nil => rw [walkDirs] at hf; cases hf
  | .cons name t rest =>
    rw [walkDirs] at hf
    rcases List.mem_append.mp hf with hl | hr
    · by_cases hex : excludes.contains name
      · rw [if_pos hex] at hl; cases hl
      · rw [if_neg hex] at hl
        rcases walkTree_mem pattern excludes (path_join root name) t f hl with
          ⟨ds, n, hchain, hexs, hmatch, hjoin⟩
        exact ⟨name, t, ds, n, DirsHas.head, Bool.not_eq_true _ ▸ eq_false_of_ne_true
          (fun hc => hex hc), hchain, hexs, hmatch, hjoin⟩
    · rcases walkDirs_mem pattern excludes root rest f hr with
        ⟨d, t1, ds, n, hhas, hdex, hchain, hexs, hmatch, hjoin⟩
      exact ⟨d, t1, ds, n, DirsHas.tail hhas, hdex, hchain, hexs, hmatch, hjoin⟩
end

/-- Option values that occur in the plugin configuration (scalars suffice
for the defaults and the documented overrides). -/
inductive OptVal : Type where
  | bool (b : Bool)
  | str (s : String)
deriving DecidableEq

/-- The verifier collaborator, consumed only for its directory. -/
structure Verifier : Type where
  directory : String

/-- The read-only slice of the orchestrator configuration the plugin uses:
project directory, enabled flag, user option overrides, user environment
overrides, debug flag and the verifier collaborator. -/
structure Config : Type where
  projectDirectory : String
  enabled : Bool
  lintUserOptions : Dict OptVal
  env : Dict String
  debug : Bool
  verifier : Verifier

/-- A baked yamllint command: the merged options, the discovered files and
the merged environment handed to sh.yamllint.bake (the output sinks are
fixed to the logger and carry no data). -/
structure BakedCommand : Type where
  cmdOptions : Dict OptVal
  cmdFiles : List String
  cmdEnv : Dict String
deriving DecidableEq

/-- The plugin state: the configuration, the lazily baked command (None
until bake runs) and the file list computed once at construction. -/
structure Yamllint : Type where
  config : Config
  yamllintCommand : Option BakedCommand
  files : List String

/-- Translation of Yamllint.default_options (yamllint.py lines 100 to 104):
the built-in defaults are exactly the strict flag set to true. -/
def Yamllint.default_options : Dict OptVal :=
  [(("s"), OptVal.bool true)]

/-- Translation of Yamllint.default_env (yamllint.py lines 106 to 108):
util.merge_dicts(os.environ.copy(), self._config.env).  The process
environment at access time is the procEnv argument; os.environ.copy()
confines every write of the merge to the copy. -/
def Yamllint.default_env (procEnv : Dict String) (p : Yamllint) : Dict String :=
  merge_dicts procEnv p.config.env

/-- Modelled from the spec: the options property of base.Base is not under
src/.  Spec 3 MergedOptions: plugin defaults overridden key by key by the
user options. -/
def Yamllint.options (p : Yamllint) : Dict OptVal :=
  merge_dicts Yamllint.default_options p.config.lintUserOptions

/-- Modelled from the spec: the env property of base.Base is not under
src/.  Spec 3 MergedEnvironment: full copy of the process environment
overridden key by key by the user env entries, which is exactly what
default_env computes. -/
def Yamllint.env (procEnv : Dict String) (p : Yamllint) : Dict String :=
  Yamllint.default_env procEnv p

/-- One access of the default_env property viewed as a state transformer on
the process environment: the first component is the returned mapping, the
second the process environment after the access.  Because the source copies
os.environ before merging and the merge itself is pure (spec 4.2), the
process environment after the access is the one before it. -/
def default_env_access (p : Yamllint) (procEnv : Dict String) :
    Dict String × Dict String :=
  (Yamllint.default_env procEnv p, procEnv)

/-- The command value produced by one call of Yamllint.bake (yamllint.py
lines 110 to 121): sh.yamllint.bake(self.options, self._files,
_env=self.env, _out=LOG.out, _err=LOG.error). -/
def Yamllint.bakeCmd (procEnv : Dict String) (p : Yamllint) : BakedCommand :=
  { cmdOptions := Yamllint.options p
  , cmdFiles := p.files
  , cmdEnv := Yamllint.env procEnv p }

/-- Translation of Yamllint.bake: stores the baked command on the plugin. -/
def Yamllint.bake (procEnv : Dict String) (p : Yamllint) : Yamllint :=
  { p with yamllintCommand := some (Yamllint.bakeCmd procEnv p) }

/-- The exceptions the sh library raises when running a baked command: a
nonzero exit becomes ErrorReturnCode carrying the exit code, a command that
cannot be launched raises a separate CommandNotFound exception that is not
an ErrorReturnCode. -/
inductive ShExc : Type where
  | errorReturnCode (code : Nat)
  | commandNotFound (msg : String)
deriving DecidableEq

/-- Behaviour of the external yamllint tool on one run: it either
terminates with an exit code or cannot be launched at all. -/
inductive ToolBehavior : Type where
  | exits (code : Nat)
  | launchFailure (msg : String)

/-- Modelled from the spec: util.run_command is not under src/.  Spec 4.4
and 6: it runs the baked command, returns normally on exit code zero,
raises sh.ErrorReturnCode carrying the exact exit code on a nonzero exit,
and raises a distinct launch error when the executable cannot be run. -/
def run_command (cmd : BakedCommand) (debug : Bool) (tool : ToolBehavior) :
    Except ShExc Unit :=
  match tool with
  | .exits code => if code = 0 then Except.ok () else Except.error (ShExc.errorReturnCode code)
  | .launchFailure m => Except.error (ShExc.commandNotFound m)

/-- How one call of execute ends: a plain return, termination of the whole
process with an exit code, or an exception propagating out uncaught. -/
inductive ExecOutcome : Type where
  | returned
  | sysexit (code : Nat)
  | raised (msg : String)
deriving DecidableEq

/-- Modelled from the spec: util.sysexit is not under src/.  Spec 6 process
exit contract: terminate the whole invoking process with the given code. -/
def sysexit (code : Nat) : ExecOutcome :=
  ExecOutcome.sysexit code

/-- Severities of the logger calls execute makes. -/
inductive LogLevel : Type where
  | warn
  | info
  | success
deriving DecidableEq

/-- One logged line. -/
structure LogMsg : Type where
  level : LogLevel
  text : String
deriving DecidableEq

/-- Everything observable about one call of Yamllint.execute: the plugin
state after the call, the command passed to run_command if any, how the
call ended, and the logged lines in order. -/
structure ExecResult : Type where
  plugin : Yamllint
  launched : Option BakedCommand
  outcome : ExecOutcome
  logs : List LogMsg

/-- The skip notice logged when lint is disabled. -/
def skipMsg : LogMsg :=
  { level := LogLevel.warn, text := ("Skipping, lint is disabled.") }

/-- The info notice logged before running the tool. -/
def executingMsg (projectDirectory : String) : LogMsg :=
  { level := LogLevel.info
  , text := ("Executing Yamllint on files found in ") ++ projectDirectory ++ ("/...") }

/-- The success notice logged after a clean run. -/
def successMsg : LogMsg :=
  { level := LogLevel.success, text := ("Lint completed successfully.") }

/-- Translation of Yamllint.execute (yamllint.py lines 123 to 141): skip
with a warning when disabled; bake lazily when no command is stored; log
the info notice; run the command; on a clean exit log the success notice;
on sh.ErrorReturnCode terminate the process with the exit code of the
tool; any other exception propagates uncaught. -/
def Yamllint.execute (procEnv : Dict String) (p : Yamllint) (tool : ToolBehavior) :
    ExecResult :=
  if p.config.enabled then
    let cmd : BakedCommand :=
      match p.yamllintCommand with
      | none => Yamllint.bakeCmd procEnv p
      | some c => c
    let p2 : Yamllint := { p with yamllintCommand := some cmd }
    let logInfo : LogMsg := executingMsg p.config.projectDirectory
    match run_command cmd p.config.debug tool with
    | Except.ok _ =>
        { plugin := p2, launched := some cmd, outcome := ExecOutcome.returned
        , logs := [logInfo, successMsg] }
    | Except.error (ShExc.errorReturnCode c) =>
        { plugin := p2, launched := some cmd, outcome := sysexit c
        , logs := [logInfo] }
    | Except.error (ShExc.commandNotFound m) =>
        { plugin := p2, launched := some cmd, outcome := ExecOutcome.raised m
        , logs := [logInfo] }
  else
    { plugin := p, launched := none, outcome := ExecOutcome.returned
    , logs := [skipMsg] }

/-- The exclusion list built by Yamllint._get_files (yamllint.py lines 149
to 155): version control and cache directories plus the base name of the
verifier directory, read from the collaborator. -/
def Yamllint.get_files_excludes (cfg : Config) : List String :=
  [(".git"), (".tox"), (".vagrant"), (".venv"), basename cfg.verifier.directory]

/-- Translation of Yamllint._get_files (yamllint.py lines 143 to 161): the
concatenation of the walks for the yml pattern and then the yaml pattern,
both rooted at the project directory with the exclusion list. -/
def Yamllint.get_files (cfg : Config) (tree : FsTree) : List String :=
  os_walk cfg.projectDirectory ("*.yml") (Yamllint.get_files_excludes cfg) tree
    ++ os_walk cfg.projectDirectory ("*.yaml") (Yamllint.get_files_excludes cfg) tree

/-- Translation of Yamllint.__init__ (yamllint.py lines 89 to 98): the
stored command starts unset and the file list is computed once from the
tree rooted at the project directory. -/
def Yamllint.init (cfg : Config) (tree : FsTree) : Yamllint :=
  { config := cfg, yamllintCommand := none, files := Yamllint.get_files cfg tree }

/-- C5: the merged options are the defaults overridden key by key by the
user mapping: an overridden key takes the override value entirely, a key
absent from the overrides keeps its default, keys only in the overrides are
added; the strict flag s stays true whenever it is not overridden; the
defaults read on every access are the unchanged literal, and the merge of
the spec test vector is exactly the expected mapping. -/
theorem options_merge_shallow (p : Yamllint) :
    (∀ k, List.lookup k (Yamllint.options p) =
      (List.lookup k p.config.lintUserOptions).or
        (List.lookup k Yamllint.default_options)) ∧
    List.lookup ("s") (Yamllint.options p) =
      some ((List.lookup ("s") p.config.lintUserOptions).getD (OptVal.bool true)) ∧
    Yamllint.default_options = [(("s"), OptVal.bool true)] ∧
    merge_dicts Yamllint.default_options
        [(("s"), OptVal.bool false), (("config-file"), OptVal.str ("x"))] =
      [(("s"), OptVal.bool false), (("config-file"), OptVal.str ("x"))] := by
  refine ⟨?_, ?_, rfl, by decide⟩
  · intro k
    rw [Yamllint.options]
    exact lookup_merge_dicts Yamllint.default_options p.config.lintUserOptions k
  · rw [Yamllint.options, lookup_merge_dicts]
    cases hs : List.lookup ("s") p.config.lintUserOptions with
    | some v => simp
    | none => simp [Yamllint.default_options, List.lookup]

/-- C6: one access of default_env returns the full process environment
overridden key by key by the user entries, leaves the process environment
unchanged, and a second access with a different plugin configuration is
unaffected by the first access. -/
theorem default_env_no_mutation (p q : Yamllint) (procEnv : Dict String) :
    (default_env_access p procEnv).2 = procEnv ∧
    default_env_access q ((default_env_access p procEnv).2) =
      (merge_dicts procEnv q.config.env, procEnv) ∧
    (∀ k, List.lookup k (default_env_access p procEnv).1 =
      (List.lookup k p.config.env).or (List.lookup k procEnv)) := by
  refine ⟨rfl, rfl, ?_⟩
  intro k
  show List.lookup k (merge_dicts procEnv p.config.env) = _
  exact lookup_merge_dicts procEnv p.config.env k

/-- C10: every access of default_env is rebuilt from the process
environment current at that access merged with the user overrides, the
override value winning on shared keys: two accesses around a change of the
process environment each reflect their own current environment. -/
theorem default_env_rebuilt_each_access (p : Yamllint)
    (procEnv procEnv2 : Dict String) (k : String) :
    List.lookup k (Yamllint.default_env procEnv p) =
      (List.lookup k p.config.env).or (List.lookup k procEnv) ∧
    List.lookup k (Yamllint.default_env procEnv2 p) =
      (List.lookup k p.config.env).or (List.lookup k procEnv2) := by
  rw [Yamllint.default_env, Yamllint.default_env]
  exact ⟨lookup_merge_dicts procEnv p.config.env k,
    lookup_merge_dicts procEnv2 p.config.env k⟩

/-- C3: with the plugin disabled, execute logs the skip notice and returns:
the plugin state is untouched (so a never baked command stays unset), no
command is handed to run_command, and the call neither terminates the
process nor raises. -/
theorem execute_disabled_short_circuit (procEnv : Dict String) (p : Yamllint)
    (tool : ToolBehavior) (h : p.config.enabled = false) :
    Yamllint.execute procEnv p tool =
      { plugin := p, launched := none, outcome := ExecOutcome.returned
      , logs := [skipMsg] } := by
  rw [Yamllint.execute, h]
  simp

/-- C1: on an enabled plugin, a nonzero tool exit code c terminates the
whole process with exactly that code, while exit code zero ends in a plain
return that logs the success notice and makes no process termination. -/
theorem execute_exit_code_fidelity (procEnv : Dict String) (p : Yamllint)
    (c : Nat) (h : p.config.enabled = true) (hc : c ≠ 0) :
    (Yamllint.execute procEnv p (ToolBehavior.exits c)).outcome = sysexit c ∧
    (Yamllint.execute procEnv p (ToolBehavior.exits 0)).outcome = ExecOutcome.returned ∧
    successMsg ∈ (Yamllint.execute procEnv p (ToolBehavior.exits 0)).logs ∧
    (∀ k, (Yamllint.execute procEnv p (ToolBehavior.exits 0)).outcome ≠
      ExecOutcome.sysexit k) := by
  rw [Yamllint.execute, h]
  rw [Yamllint.execute, h]
  simp [run_command, hc, sysexit]

/-- C4: on an enabled plugin, execute launches the external process only
from the stored baked command: when no command is stored it first bakes,
stores, and launches the freshly baked command; when a command is already
stored it does not re-bake and launches the stored one unchanged. -/
theorem execute_bakes_lazily (procEnv : Dict String) (p : Yamllint)
    (tool : ToolBehavior) (h : p.config.enabled = true) :
    (Yamllint.execute procEnv p tool).launched =
      (Yamllint.execute procEnv p tool).plugin.yamllintCommand ∧
    (p.yamllintCommand = none →
      (Yamllint.execute procEnv p tool).launched =
        some (Yamllint.bakeCmd procEnv p) ∧
      (Yamllint.execute procEnv p tool).plugin.yamllintCommand =
        some (Yamllint.bakeCmd procEnv p)) ∧
    (∀ c0, p.yamllintCommand = some c0 →
      (Yamllint.execute procEnv p tool).launched = some c0 ∧
      (Yamllint.execute procEnv p tool).plugin.yamllintCommand = some c0) := by
  rw [Yamllint.execute, h]
  cases hcmd : p.yamllintCommand with
  | none =>
    simp only [hcmd]
    cases hrun : run_command (Yamllint.bakeCmd procEnv p) p.config.debug tool with
    | ok u => simp [hrun]
    | error e => cases e <;> simp [hrun]
  | some c0 =>
    simp only [hcmd]
    cases hrun : run_command c0 p.config.debug tool with
    | ok u => simp [hrun]
    | error e => cases e <;> simp [hrun]

/-- C9: on an enabled plugin, a failure to launch the external executable
propagates as an uncaught exception, a path distinct from the exit code
propagation used for a nonzero lint exit: the former never terminates the
process through sysexit, the latter does. -/
theorem execute_launch_failure_distinct (procEnv : Dict String) (p : Yamllint)
    (m : String) (c : Nat) (h : p.config.enabled = true) (hc : c ≠ 0) :
    (Yamllint.execute procEnv p (ToolBehavior.launchFailure m)).outcome =
      ExecOutcome.raised m ∧
    (∀ k, (Yamllint.execute procEnv p (ToolBehavior.launchFailure m)).outcome ≠
      ExecOutcome.sysexit k) ∧
    (Yamllint.execute procEnv p (ToolBehavior.exits c)).outcome = sysexit c ∧
    ExecOutcome.raised m ≠ sysexit c := by
  rw [Yamllint.execute, h]
  rw [Yamllint.execute, h]
  simp [run_command, hc, sysexit]

/-- C8: baking is idempotent: re-baking with unchanged inputs produces an
identical baked command and simply replaces the held value, and execute
behaves the same on a plugin whether or not bake was called explicitly
beforehand (identical outcome and logs, and identical launched command
when the plugin had not been baked before). -/
theorem bake_idempotent_execute_equiv (procEnv : Dict String) (p : Yamllint)
    (tool : ToolBehavior) :
    Yamllint.bake procEnv (Yamllint.bake procEnv p) = Yamllint.bake procEnv p ∧
    Yamllint.bakeCmd procEnv (Yamllint.bake procEnv p) =
      Yamllint.bakeCmd procEnv p ∧
    (Yamllint.bake procEnv p).yamllintCommand =
      some (Yamllint.bakeCmd procEnv p) ∧
    (Yamllint.execute procEnv (Yamllint.bake procEnv p) tool).outcome =
      (Yamllint.execute procEnv p tool).outcome ∧
    (Yamllint.execute procEnv (Yamllint.bake procEnv p) tool).logs =
      (Yamllint.execute procEnv p tool).logs ∧
    (p.yamllintCommand = none →
      (Yamllint.execute procEnv (Yamllint.bake procEnv p) tool).launched =
        (Yamllint.execute procEnv p tool).launched) := by
  refine ⟨rfl, rfl, rfl, ?_, ?_, ?_⟩ <;>
    · rw [Yamllint.execute, Yamllint.execute]
      cases he : p.config.enabled <;>
        cases hcmd : p.yamllintCommand <;>
          cases tool with
          | exits code =>
            by_cases h0 : code = 0 <;>
              simp [Yamllint.bake, he, hcmd, run_command, h0]
          | launchFailure m => simp [Yamllint.bake, he, hcmd, run_command]

theorem glob_yml_suffix (n : String) (h : globMatch (("*.yml")) n = true) :
    (".yml").data <:+ n.data := by
  have h2 : decide ((".yml").data <:+ n.data) = true := h
  exact of_decide_eq_true h2

theorem glob_yaml_suffix (n : String) (h : globMatch (("*.yaml")) n = true) :
    (".yaml").data <:+ n.data := by
  have h2 : decide ((".yaml").data <:+ n.data) = true := h
  exact of_decide_eq_true h2

theorem suffix_joinAll (root : String) (ds : List String) (n : String)
    (s : List Char) (h : s <:+ n.data) : s <:+ (joinAll root ds n).data := by
  rw [joinAll, path_join, String.data_append]
  exact h.trans (List.suffix_append _ _)

/-- C2: every file discovered by _get_files is reached from the project
root through a chain of subdirectories none of whose base names is in the
exclusion list, so nothing beneath an excluded subdirectory at any depth is
in the list; the exclusion list holds the version control and cache
directory names and the base name of the verifier directory read from the
collaborator. -/
theorem get_files_excludes_pruned (cfg : Config) (tree : FsTree) (f : String)
    (hf : f ∈ Yamllint.get_files cfg tree) :
    basename cfg.verifier.directory ∈ Yamllint.get_files_excludes cfg ∧
    (".git") ∈ Yamllint.get_files_excludes cfg ∧
    (".tox") ∈ Yamllint.get_files_excludes cfg ∧
    (".vagrant") ∈ Yamllint.get_files_excludes cfg ∧
    (".venv") ∈ Yamllint.get_files_excludes cfg ∧
    ∃ ds n, DirChain tree ds n ∧
      (∀ d ∈ ds, (Yamllint.get_files_excludes cfg).contains d = false) ∧
      f = joinAll cfg.projectDirectory ds n := by
  refine ⟨by simp [Yamllint.get_files_excludes], by simp [Yamllint.get_files_excludes],
    by simp [Yamllint.get_files_excludes], by simp [Yamllint.get_files_excludes],
    by simp [Yamllint.get_files_excludes], ?_⟩
  rw [Yamllint.get_files, os_walk, os_walk] at hf
  rcases List.mem_append.mp hf with h1 | h1 <;>
  · rcases walkTree_mem _ _ _ _ _ h1 with ⟨ds, n, hchain, hex, _, hjoin⟩
    exact ⟨ds, n, hchain, hex, hjoin⟩

/-- Example configuration of the spec test vector for discovery. -/
def cfgEx : Config :=
  { projectDirectory := ("proj"), enabled := true, lintUserOptions := []
  , env := [], debug := false, verifier := { directory := ("molecule/default") } }

/-- Example tree of the spec test vector for discovery: three files a.yml,
b.yaml and c.txt directly under the project root. -/
def treeEx : FsTree :=
  FsTree.node [("a.yml"), ("b.yaml"), ("c.txt")] FsDirs.nil

/-- C7: the discovered list is the concatenation of the walk for the yml
pattern and then the walk for the yaml pattern, so every yml match comes
before every yaml match; every listed file path ends in one of the two
extensions, so files matching neither pattern never appear; on the spec
test tree the result is exactly the two matching files in pattern order. -/
theorem get_files_pattern_union (cfg : Config) (tree : FsTree) :
    (∃ l1 l2, Yamllint.get_files cfg tree = l1 ++ l2 ∧
      (∀ f ∈ l1, ∃ ds n, DirChain tree ds n ∧ globMatch (("*.yml")) n = true ∧
        f = joinAll cfg.projectDirectory ds n) ∧
      (∀ f ∈ l2, ∃ ds n, DirChain tree ds n ∧ globMatch (("*.yaml")) n = true ∧
        f = joinAll cfg.projectDirectory ds n)) ∧
    (∀ f ∈ Yamllint.get_files cfg tree,
      (".yml").data <:+ f.data ∨ (".yaml").data <:+ f.data) ∧
    Yamllint.get_files cfgEx treeEx = [("proj/a.yml"), ("proj/b.yaml")] := by
  refine ⟨⟨os_walk cfg.projectDirectory (("*.yml")) (Yamllint.get_files_excludes cfg) tree,
      os_walk cfg.projectDirectory (("*.yaml")) (Yamllint.get_files_excludes cfg) tree,
      rfl, ?_, ?_⟩, ?_, by decide⟩
  · intro f hfm
    rcases walkTree_mem _ _ _ _ _ hfm with ⟨ds, n, hchain, _, hmatch, hjoin⟩
    exact ⟨ds, n, hchain, hmatch, hjoin⟩
  · intro f hfm
    rcases walkTree_mem _ _ _ _ _ hfm with ⟨ds, n, hchain, _, hmatch, hjoin⟩
    exact ⟨ds, n, hchain, hmatch, hjoin⟩
  · intro f hfm
    rw [Yamllint.get_files, os_walk, os_walk] at hfm
    rcases List.mem_append.mp hfm with h1 | h1
    · rcases walkTree_mem _ _ _ _ _ h1 with ⟨ds, n, _, _, hmatch, hjoin⟩
      exact Or.inl (hjoin ▸ suffix_joinAll _ _ _ _ (glob_yml_suffix n hmatch))
    · rcases walkTree_mem _ _ _ _ _ h1 with ⟨ds, n, _, _, hmatch, hjoin⟩
      exact Or.inr (hjoin ▸ suffix_joinAll _ _ _ _ (glob_yaml_suffix n hmatch))

/-- Concrete tree for the witnesses: one matching file at the root and one
matching file hidden inside a .git directory. -/
def treeW : FsTree :=
  FsTree.node [("playbook.yml")]
    (FsDirs.cons (".git") (FsTree.node [("hidden.yml")] FsDirs.nil) FsDirs.nil)

/-- Concrete enabled configuration for the witnesses. -/
def cfgEnabledW : Config :=
  { projectDirectory := ("proj"), enabled := true, lintUserOptions := []
  , env := [], debug := false, verifier := { directory := ("molecule/default") } }

/-- Concrete disabled configuration for the witnesses. -/
def cfgDisabledW : Config :=
  { projectDirectory := ("proj"), enabled := false, lintUserOptions := []
  , env := [], debug := false, verifier := { directory := ("molecule/default") } }

/-- Concrete enabled plugin for the witnesses. -/
def pEnabledW : Yamllint :=
  Yamllint.init cfgEnabledW treeW

/-- Concrete disabled plugin for the witnesses. -/
def pDisabledW : Yamllint :=
  Yamllint.init cfgDisabledW treeW

theorem execute_exit_code_fidelity_witness :
    pEnabledW.config.enabled = true ∧ (2 : Nat) ≠ 0 ∧
    ((Yamllint.execute [] pEnabledW (ToolBehavior.exits 2)).outcome = sysexit 2 ∧
     (Yamllint.execute [] pEnabledW (ToolBehavior.exits 0)).outcome =
       ExecOutcome.returned ∧
     successMsg ∈ (Yamllint.execute [] pEnabledW (ToolBehavior.exits 0)).logs ∧
     (∀ k, (Yamllint.execute [] pEnabledW (ToolBehavior.exits 0)).outcome ≠
       ExecOutcome.sysexit k)) :=
  ⟨rfl, by decide, execute_exit_code_fidelity [] pEnabledW 2 rfl (by decide)⟩

theorem get_files_excludes_pruned_witness :
    ("proj/playbook.yml") ∈ Yamllint.get_files cfgEnabledW treeW ∧
    (∃ ds n, DirChain treeW ds n ∧
      (∀ d ∈ ds, (Yamllint.get_files_excludes cfgEnabledW).contains d = false) ∧
      ("proj/playbook.yml") = joinAll cfgEnabledW.projectDirectory ds n) :=
  ⟨by decide,
   (get_files_excludes_pruned cfgEnabledW treeW ("proj/playbook.yml")
     (by decide)).2.2.2.2.2⟩

theorem execute_disabled_short_circuit_witness :
    pDisabledW.config.enabled = false ∧
    Yamllint.execute [] pDisabledW (ToolBehavior.exits 2) =
      { plugin := pDisabledW, launched := none, outcome := ExecOutcome.returned
      , logs := [skipMsg] } :=
  ⟨rfl, execute_disabled_short_circuit [] pDisabledW (ToolBehavior.exits 2) rfl⟩

theorem execute_bakes_lazily_witness :
    pEnabledW.config.enabled = true ∧
    ((Yamllint.execute [] pEnabledW (ToolBehavior.exits 0)).launched =
      (Yamllint.execute [] pEnabledW (ToolBehavior.exits 0)).plugin.yamllintCommand ∧
    (pEnabledW.yamllintCommand = none →
      (Yamllint.execute [] pEnabledW (ToolBehavior.exits 0)).launched =
        some (Yamllint.bakeCmd [] pEnabledW) ∧
      (Yamllint.execute [] pEnabledW (ToolBehavior.exits 0)).plugin.yamllintCommand =
        some (Yamllint.bakeCmd [] pEnabledW)) ∧
    (∀ c0, pEnabledW.yamllintCommand = some c0 →
      (Yamllint.execute [] pEnabledW (ToolBehavior.exits 0)).launched = some c0 ∧
      (Yamllint.execute [] pEnabledW (ToolBehavior.exits 0)).plugin.yamllintCommand =
        some c0)) :=
  ⟨rfl, execute_bakes_lazily [] pEnabledW (ToolBehavior.exits 0) rfl⟩

theorem execute_launch_failure_distinct_witness :
    pEnabledW.config.enabled = true ∧ (2 : Nat) ≠ 0 ∧
    ((Yamllint.execute [] pEnabledW
        (ToolBehavior.launchFailure ("yamllint not found"))).outcome =
      ExecOutcome.raised ("yamllint not found") ∧
    (∀ k, (Yamllint.execute [] pEnabledW
        (ToolBehavior.launchFailure ("yamllint not found"))).outcome ≠
      ExecOutcome.sysexit k) ∧
    (Yamllint.execute [] pEnabledW (ToolBehavior.exits 2)).outcome = sysexit 2 ∧
    ExecOutcome.raised ("yamllint not found") ≠ sysexit 2) :=
  ⟨rfl, by decide,
   execute_launch_failure_distinct [] pEnabledW ("yamllint not found") 2 rfl
     (by decide)⟩
